import Mathlib

/-!
Verification of the minecraft-server repository's telemetry/event pipeline
spec and of its web frontend code.

The pipeline components (EventParser, LogWatcher, SessionTracker,
MonitoringService, Dispatcher) are described in spec.md but their code is
not in the repository snapshot; they are modelled here from the spec's
words.  The web frontend (useLogsWs hook, api client, Console page) is
embedded directly from the TypeScript source.
-/

/-! ## EventParser (modelled from the spec) -/

/-- Modelled from the spec: the EventParser component is missing from the
snapshot.  Event is the closed tagged variant {Join, Leave, ChatMessage};
timestamps are carried as the observed timestamp text. -/
inductive Event where
  | join (player : String) (time : String)
  | leave (player : String) (time : String)
  | chat (player : String) (text : String) (time : String)
deriving Repr, DecidableEq

/-- Strip the expected list from the front, or fail. -/
def stripPre : List Char → List Char → Option (List Char)
  | [], l => some l
  | _ :: _, [] => none
  | p :: ps, c :: cs => if c = p then stripPre ps cs else none

/-- Strip the expected list from the back, or fail. -/
def stripSuf (suf l : List Char) : Option (List Char) :=
  match stripPre suf.reverse l.reverse with
  | none => none
  | some r => some r.reverse

/-- Split at the first occurrence of the separator character. -/
def splitAtChar (sep : Char) : List Char → Option (List Char × List Char)
  | [] => none
  | c :: cs =>
    if c = sep then some ([], cs)
    else
      match splitAtChar sep cs with
      | none => none
      | some (a, b) => some (c :: a, b)

/-- Modelled from the spec: the host's legal character set for player
names (alphanumeric or underscore). -/
def validNameChar (c : Char) : Bool := c.isAlphanum || c = '_'

/-- Modelled from the spec: a player name is valid when nonempty and all
characters are legal. -/
def validName (name : List Char) : Bool :=
  !name.isEmpty && name.all validNameChar

def joinSuffix : List Char := (" joined the game").toList

def leaveSuffix : List Char := (" left the game").toList

/-- Modelled from the spec: parse the body after the timestamp header.
Join/leave are player-name plus a fixed announcement suffix; chat is the
host's chat-log convention of an angle-bracketed name.  An invalid name
degrades the line to none. -/
def parseBody (ts body : List Char) : Option Event :=
  match stripSuf joinSuffix body with
  | some name => if validName name then some (.join ⟨name⟩ ⟨ts⟩) else none
  | none =>
    match stripSuf leaveSuffix body with
    | some name => if validName name then some (.leave ⟨name⟩ ⟨ts⟩) else none
    | none =>
      match body with
      | [] => none
      | b :: rest =>
        if b = '<' then
          match splitAtChar '>' rest with
          | none => none
          | some (name, tail) =>
            match tail with
            | [] => none
            | sp :: msg =>
              if sp = ' ' then
                if validName name then some (.chat ⟨name⟩ ⟨msg⟩ ⟨ts⟩) else none
              else none
        else none

/-- Split a raw line into its timestamp and body when it carries the
bracketed-header shape; the shared front end of the parser and of the
three pattern recognisers. -/
def splitHeader (l : List Char) : Option (List Char × List Char) :=
  match l with
  | [] => none
  | c :: rest =>
    if c = '[' then
      match splitAtChar ']' rest with
      | none => none
      | some (ts, after) =>
        match after with
        | [] => none
        | a :: body => if a = ' ' then some (ts, body) else none
    else none

/-- Modelled from the spec: a raw log line is a bracketed timestamp header
followed by a body; anything else is silently dropped. -/
def parseChars (l : List Char) : Option Event :=
  match splitHeader l with
  | none => none
  | some (ts, body) => parseBody ts body

/-- Modelled from the spec: EventParser.parse, a pure function from a raw
log line to zero or one typed event. -/
def parse (line : String) : Option Event := parseChars line.toList

/-- The player name carried by an event. -/
def eventName : Event → String
  | .join p _ => p
  | .leave p _ => p
  | .chat p _ _ => p

/-- Executable recogniser for the join announcement pattern. -/
def matchesJoin (l : List Char) : Bool :=
  match splitHeader l with
  | none => false
  | some (_, body) => (stripSuf joinSuffix body).isSome

/-- Executable recogniser for the leave announcement pattern. -/
def matchesLeave (l : List Char) : Bool :=
  match splitHeader l with
  | none => false
  | some (_, body) => (stripSuf leaveSuffix body).isSome

/-- Executable recogniser for the chat-message pattern. -/
def matchesChat (l : List Char) : Bool :=
  match splitHeader l with
  | none => false
  | some (_, body) =>
    match body with
    | [] => false
    | b :: rest =>
      if b = '<' then
        match splitAtChar '>' rest with
        | none => false
        | some (_, tail) =>
          match tail with
          | [] => false
          | sp :: _ => sp = ' '
      else false

/-- Declarative form of the join pattern: a bracketed timestamp, a blank,
then some name followed by the join announcement suffix. -/
def matchesJoinPat (l : List Char) : Prop :=
  ∃ ts name, ']' ∉ ts ∧ l = '[' :: ts ++ ']' :: ' ' :: (name ++ joinSuffix)

/-- Declarative form of the leave pattern. -/
def matchesLeavePat (l : List Char) : Prop :=
  ∃ ts name, ']' ∉ ts ∧ l = '[' :: ts ++ ']' :: ' ' :: (name ++ leaveSuffix)

/-- Declarative form of the chat pattern. -/
def matchesChatPat (l : List Char) : Prop :=
  ∃ ts name msg, ']' ∉ ts ∧ '>' ∉ name ∧
    l = '[' :: ts ++ ']' :: ' ' :: '<' :: (name ++ '>' :: ' ' :: msg)

/-! ## SessionTracker (modelled from the spec) -/

/-- Modelled from the spec: a Session row of the durable store.  `recovered`
is the explicit marker distinguishing a crash-recovery close from an
observed close. -/
structure Session where
  player : String
  joined_at : String
  left_at : Option String
  recovered : Bool
deriving Repr, DecidableEq

/-- Close every open session of the given player, stamping the close time. -/
def closeOpen (s : List Session) (p : String) (t : String) : List Session :=
  s.map fun sess =>
    if sess.player = p ∧ sess.left_at = none then
      { sess with left_at := some t }
    else sess

/-- Number of open sessions (left_at = null) for a player. -/
def openCount (s : List Session) (p : String) : Nat :=
  s.countP fun sess => decide (sess.player = p ∧ sess.left_at = none)

/-- Modelled from the spec: SessionTracker consumes Join/Leave events.  A
Join closes any stale open session at the new join's timestamp and then
opens a fresh session; a Leave closes the matching open session (ignored
when none is open); chat events do not touch the store. -/
def SessionTracker.handle (s : List Session) : Event → List Session
  | .join p t =>
    closeOpen s p t ++ [{ player := p, joined_at := t, left_at := none, recovered := false }]
  | .leave p t => closeOpen s p t
  | .chat _ _ _ => s

/-- Fold a batch of events through the tracker in emission order. -/
def processEvents (s : List Session) (es : List Event) : List Session :=
  es.foldl SessionTracker.handle s

/-- Parse a batch of raw log lines and feed the recognised events to the
tracker in original order. -/
def processLines (s : List Session) (lines : List String) : List Session :=
  processEvents s (lines.filterMap parse)

/-- Modelled from the spec: startup recovery closes every session with
left_at = null using the recovery timestamp and marks it as recovered. -/
def recoverOrphans (s : List Session) (t : String) : List Session :=
  s.map fun sess =>
    if sess.left_at = none then
      { sess with left_at := some t, recovered := true }
    else sess

/-! ## MonitoringService (modelled from the spec) -/

/-- Modelled from the spec: per-metric AlertState with hysteresis status
and the time the last alert fired. -/
structure AlertState where
  active : Bool
  last_fired_at : Option Nat
deriving Repr, DecidableEq

/-- Modelled from the spec: one hysteresis step for one metric.  Returns
the new state and whether an alert fired.  A breach fires when no alert
for this metric fired within the cool-down window; within the window the
alert is suppressed but the state still flips to Active; no breach resets
the state silently. -/
def monStep (cooldown now : Nat) (breach : Bool) (st : AlertState) :
    AlertState × Bool :=
  if breach then
    match st.last_fired_at with
    | none => ({ active := true, last_fired_at := some now }, true)
    | some t =>
      if now < t + cooldown then ({ st with active := true }, false)
      else ({ active := true, last_fired_at := some now }, true)
  else ({ st with active := false }, false)

/-- Run consecutive breaching polls at the given times, counting alerts. -/
def runBreaches (cooldown : Nat) (st : AlertState) :
    List Nat → AlertState × Nat
  | [] => (st, 0)
  | now :: later =>
    let r := monStep cooldown now true st
    let tail := runBreaches cooldown r.1 later
    (tail.1, (if r.2 then 1 else 0) + tail.2)

/-- Modelled from the spec: a static threshold rule; breach when the value
crosses the limit in the unsafe direction. -/
structure ThresholdRule where
  metric : String
  isUpper : Bool
  limit : Int
deriving Repr, DecidableEq

/-- Modelled from the spec: evaluate a rule against a sampled value; an
absent value (source unreachable) is unknown, never a breach. -/
def evalBreach (rule : ThresholdRule) (value : Option Int) : Bool :=
  match value with
  | none => false
  | some v => if rule.isUpper then rule.limit < v else v < rule.limit

/-- Modelled from the spec: one MonitoringService tick over all configured
rules, sampling each rule's metric; returns updated states and the number
of alerts emitted. -/
def monTick (cooldown now : Nat) (sample : String → Option Int)
    (states : List (ThresholdRule × AlertState)) :
    List (ThresholdRule × AlertState) × Nat :=
  match states with
  | [] => ([], 0)
  | rs :: rest =>
    let r := monStep cooldown now (evalBreach rs.1 (sample rs.1.metric)) rs.2
    let tail := monTick cooldown now sample rest
    ((rs.1, r.1) :: tail.1, (if r.2 then 1 else 0) + tail.2)

/-! ## LogWatcher (modelled from the spec) -/

/-- Modelled from the spec: the result of LogSource.fetchSince — new lines,
the new cursor, and whether the source reported a discontinuity (head
reset). -/
structure FetchResult where
  lines : List String
  newCursor : Nat
  reset : Bool

/-- Modelled from the spec: one LogWatcher tick.  On a reported
discontinuity the cursor resets to the source's head; otherwise the cursor
advances past the batch only when the whole batch dispatched. -/
def LogWatcher.tick (src : Nat → FetchResult)
    (dispatchBatch : List String → Bool) (cursor : Nat) : Nat :=
  let r := src cursor
  if r.reset then r.newCursor
  else if dispatchBatch r.lines then r.newCursor
  else cursor

/-- Iterate the watcher for a number of ticks. -/
def LogWatcher.runTicks (src : Nat → FetchResult)
    (dispatchBatch : List String → Bool) (cursor : Nat) : Nat → Nat
  | 0 => cursor
  | n + 1 => LogWatcher.runTicks src dispatchBatch
      (LogWatcher.tick src dispatchBatch cursor) n

/-! ## Dispatcher (modelled from the spec) -/

/-- Outcome of one consumer invocation after the per-consumer catch. -/
inductive ConsumerResult where
  | delivered
  | failed (msg : String)
deriving Repr, DecidableEq

/-- Modelled from the spec: invoke one consumer on an event, catching its
failure. -/
def attemptDeliver (c : Event → Except String Unit) (e : Event) :
    ConsumerResult :=
  match c e with
  | .ok _ => .delivered
  | .error m => .failed m

/-- Modelled from the spec: Dispatcher.dispatch delivers the event to every
registered consumer in order; each invocation is isolated, so no consumer
failure escapes to the producer. -/
def dispatch (consumers : List (Event → Except String Unit)) (e : Event) :
    Except String (List ConsumerResult) :=
  match consumers with
  | [] => .ok []
  | c :: cs =>
    let r := attemptDeliver c e
    match dispatch cs e with
    | .ok tail => .ok (r :: tail)
    | .error m => .error m

/-! ## Web frontend: useLogsWs hook (src/web/src/hooks/useLogs.ts) -/

def MAX_LINES : Nat := 3000

/-- JavaScript `slice(-n)`: the last `n` elements (all of them when the
list is shorter). -/
def lastN (n : Nat) (l : List String) : List String := l.drop (l.length - n)

/-- A websocket message as the hook's onmessage handler distinguishes it. -/
inductive WsMsg where
  | initial (lines : List String)
  | newLines (lines : List String)

/-- The state update the hook's onmessage handler applies to the lines
buffer: an initial message replaces the buffer with the last MAX_LINES of
the received lines; a new-lines message appends and keeps the last
MAX_LINES, except that when paused the new lines are silently dropped. -/
def handleWsMessage (paused : Bool) (buf : List String) : WsMsg → List String
  | .initial ls => lastN MAX_LINES ls
  | .newLines ls =>
    if paused then buf
    else
      let combined := buf ++ ls
      if MAX_LINES < combined.length then lastN MAX_LINES combined
      else combined

/-- A whole websocket session: fold the handler over the received messages
with the pause flag each message observed, starting from the empty
buffer. -/
def runWsSession (steps : List (Bool × WsMsg)) : List String :=
  steps.foldl (fun buf s => handleWsMessage s.1 buf s.2) []

/-! ## Web frontend: api client (src/web/src/api/client.ts) and auth store -/

/-- The zustand auth store's state (src/unnamed/part_001). -/
structure AuthState where
  token : Option String
  role : Option String
  telegramId : Option Int
  firstName : Option String
deriving Repr, DecidableEq

/-- The store's logout action: every field set to null. -/
def AuthState.logout (_ : AuthState) : AuthState :=
  { token := none, role := none, telegramId := none, firstName := none }

/-- A fetch response as the request helper inspects it: the HTTP status,
the body's detail field when present, and the parsed JSON payload. -/
structure HttpResponse where
  status : Nat
  detail : Option String
  jsonBody : String

/-- fetch's `res.ok`: status in the 200-299 range. -/
def responseOk (status : Nat) : Bool := 200 ≤ status && status < 300

/-- The error message a non-ok response produces: the body's detail field
when present and truthy, else `HTTP <status>` (JS `||` treats the empty
string as falsy). -/
def errorDetail (res : HttpResponse) : String :=
  match res.detail with
  | some d => if d = "" then "HTTP " ++ toString res.status else d
  | none => "HTTP " ++ toString res.status

/-- The request helper of src/web/src/api/client.ts applied to a response:
401 logs out and throws Unauthorized; any other non-ok status throws the
detail message leaving the auth state alone; an ok response returns the
parsed body. -/
def request (auth : AuthState) (res : HttpResponse) :
    AuthState × Except String String :=
  if res.status = 401 then
    (auth.logout, .error ("Unauthorized"))
  else if !(responseOk res.status) then
    (auth, .error (errorDetail res))
  else
    (auth, .ok res.jsonBody)

/-! ## Web frontend: Console page (src/web/src/pages/Console.tsx) -/

/-- The display log entry kinds of the Console page. -/
inductive EntryType where
  | command
  | response
  | failure
deriving Repr, DecidableEq

/-- One displayed log entry. -/
structure LogEntry where
  type : EntryType
  text : String
  time : String
deriving Repr, DecidableEq

/-- JavaScript String.prototype.trim: strip whitespace from both ends. -/
def trimChars (l : List Char) : List Char :=
  ((l.dropWhile Char.isWhitespace).reverse.dropWhile Char.isWhitespace).reverse

/-- JavaScript trim lifted to strings. -/
def jsTrim (s : String) : String := ⟨trimChars s.toList⟩

/-- The Console component's local state relevant to submit. -/
structure ConsoleState where
  input : String
  history : List LogEntry
  cmdHistory : List String
  histIdx : Int
deriving Repr, DecidableEq

/-- The submit handler: trim the input; an empty command returns early;
otherwise append a command entry to the displayed log, prepend the command
to the command history with earlier duplicates removed and the whole list
capped at 50, reset the history index and clear the input.  `now` stands
for timeStr(). -/
def submit (now : String) (s : ConsoleState) : ConsoleState :=
  let cmd := jsTrim s.input
  if cmd = "" then s
  else
    { input := "",
      history := s.history ++ [{ type := .command, text := cmd, time := now }],
      cmdHistory := (cmd :: s.cmdHistory.filter (fun c => c ≠ cmd)).take 50,
      histIdx := -1 }

/-! ## Lemmas: SessionTracker -/

theorem openCount_closeOpen_self (s : List Session) (p t : String) :
    openCount (closeOpen s p t) p = 0 := by
  refine List.countP_eq_zero.mpr ?_
  intro a ha
  rw [closeOpen, List.mem_map] at ha
  obtain ⟨b, -, rfl⟩ := ha
  by_cases hc : b.player = p ∧ b.left_at = none
  · simp [hc]
  · simp only [if_neg hc]
    simpa using hc

theorem openCount_closeOpen_other (s : List Session) (p q t : String)
    (hq : q ≠ p) : openCount (closeOpen s p t) q = openCount s q := by
  rw [openCount, closeOpen, List.countP_map]
  refine List.countP_congr ?_
  intro b _
  by_cases hc : b.player = p ∧ b.left_at = none
  · have h1 : b.player ≠ q := fun h => hq (h ▸ hc.1)
    have h2 : p ≠ q := Ne.symm hq
    simp [Function.comp, hc, h1, h2]
  · simp [Function.comp, hc]

theorem openCount_closeOpen (s : List Session) (p q t : String) :
    openCount (closeOpen s p t) q = if q = p then 0 else openCount s q := by
  by_cases hq : q = p
  · rw [if_pos hq, hq, openCount_closeOpen_self]
  · rw [if_neg hq, openCount_closeOpen_other s p q t hq]

theorem openCount_append (s₁ s₂ : List Session) (q : String) :
    openCount (s₁ ++ s₂) q = openCount s₁ q + openCount s₂ q :=
  List.countP_append _ _ _

theorem openCount_fresh (p t q : String) :
    openCount [⟨p, t, none, false⟩] q = if q = p then 1 else 0 := by
  rw [openCount, List.countP_singleton]
  by_cases hq : q = p
  · simp [hq]
  · simp [hq, Ne.symm hq]

theorem openCount_handle_join (s : List Session) (p t q : String) :
    openCount (SessionTracker.handle s (.join p t)) q =
      if q = p then 1 else openCount s q := by
  have hdef : SessionTracker.handle s (.join p t) = closeOpen s p t ++
      [{ player := p, joined_at := t, left_at := none, recovered := false }] := rfl
  rw [hdef, openCount_append, openCount_closeOpen, openCount_fresh]
  by_cases hq : q = p <;> simp [hq]

theorem openCount_handle_leave (s : List Session) (p t q : String) :
    openCount (SessionTracker.handle s (.leave p t)) q =
      if q = p then 0 else openCount s q := by
  simpa [SessionTracker.handle] using openCount_closeOpen s p q t

theorem openCount_handle_chat (s : List Session) (p x t q : String) :
    openCount (SessionTracker.handle s (.chat p x t)) q = openCount s q := rfl

theorem openCount_handle_le (s : List Session) (e : Event) (q : String)
    (h : openCount s q ≤ 1) : openCount (SessionTracker.handle s e) q ≤ 1 := by
  cases e with
  | join p t =>
    rw [openCount_handle_join]
    split <;> omega
  | leave p t =>
    rw [openCount_handle_leave]
    split <;> omega
  | chat p x t => rwa [openCount_handle_chat]

theorem openCount_processEvents_le (es : List Event) (s : List Session)
    (q : String) (h : openCount s q ≤ 1) :
    openCount (processEvents s es) q ≤ 1 := by
  induction es generalizing s with
  | nil => exact h
  | cons e es ih =>
    exact ih _ (openCount_handle_le s e q h)

theorem openCount_recoverOrphans (s : List Session) (t q : String) :
    openCount (recoverOrphans s t) q = 0 := by
  refine List.countP_eq_zero.mpr ?_
  intro a ha
  rw [recoverOrphans, List.mem_map] at ha
  obtain ⟨b, -, rfl⟩ := ha
  by_cases hc : b.left_at = none
  · simp [hc]
  · simp only [if_neg hc]
    simp only [decide_eq_true_eq, not_and]
    exact fun _ => hc

theorem mem_recoverOrphans_of_open (s : List Session) (t : String)
    (sess : Session) (hm : sess ∈ s) (ho : sess.left_at = none) :
    { sess with left_at := some t, recovered := true } ∈ recoverOrphans s t := by
  rw [recoverOrphans, List.mem_map]
  exact ⟨sess, hm, by rw [if_pos ho]⟩

theorem recovered_false_closeOpen (s : List Session) (p t : String)
    (h : ∀ x ∈ s, x.recovered = false) :
    ∀ x ∈ closeOpen s p t, x.recovered = false := by
  intro x hx
  rw [closeOpen, List.mem_map] at hx
  obtain ⟨b, hb, rfl⟩ := hx
  by_cases hc : b.player = p ∧ b.left_at = none
  · simp [hc, h b hb]
  · simp [hc, h b hb]

theorem recovered_false_handle (s : List Session) (e : Event)
    (h : ∀ x ∈ s, x.recovered = false) :
    ∀ x ∈ SessionTracker.handle s e, x.recovered = false := by
  cases e with
  | join p t =>
    intro x hx
    have hdef : SessionTracker.handle s (.join p t) = closeOpen s p t ++
        [{ player := p, joined_at := t, left_at := none, recovered := false }] := rfl
    rw [hdef, List.mem_append] at hx
    rcases hx with hx | hx
    · exact recovered_false_closeOpen s p t h x hx
    · rw [List.mem_singleton] at hx
      rw [hx]
  | leave p t => exact recovered_false_closeOpen s p t h
  | chat p x t => exact h

theorem openCount_processEvents_no_join (es : List Event) (s : List Session)
    (p : String) (h0 : openCount s p = 0)
    (hn : ∀ e ∈ es, ∀ u, e ≠ .join p u) :
    openCount (processEvents s es) p = 0 := by
  induction es generalizing s with
  | nil => exact h0
  | cons e es ih =>
    refine ih _ ?_ (fun e' he' => hn e' (List.mem_cons_of_mem _ he'))
    cases e with
    | join q t =>
      have hq : p ≠ q := by
        intro h
        exact (hn _ (List.mem_cons_self _ _) t) (by rw [h])
      rw [openCount_handle_join, if_neg hq]
      exact h0
    | leave q t =>
      rw [openCount_handle_leave]
      split
      · rfl
      · exact h0
    | chat q x t => rwa [openCount_handle_chat]

/-- C1: at every state of the SessionTracker reachable from the empty store
by any sequence of events — including processing the same ordered batch of
log lines twice — at most one session per player has left_at = null; and a
Join arriving while a session for the same name is open closes the stale
session with left_at set to the new join's timestamp and opens a fresh one,
leaving exactly one open session for that name. -/
theorem C1_single_open_session (p : String) :
    (∀ es : List Event, openCount (processEvents [] es) p ≤ 1) ∧
    (∀ lines : List String,
      openCount (processLines (processLines [] lines) lines) p ≤ 1) ∧
    (∀ (s : List Session) (t : String),
      (∀ sess ∈ s, sess.player = p → sess.left_at = none →
        { sess with left_at := some t } ∈ SessionTracker.handle s (.join p t)) ∧
      openCount (SessionTracker.handle s (.join p t)) p = 1) := by
  refine ⟨fun es => openCount_processEvents_le es [] p (by simp [openCount]),
    fun lines => ?_, fun s t => ⟨?_, ?_⟩⟩
  · rw [processLines, processLines]
    exact openCount_processEvents_le _ _ p
      (openCount_processEvents_le _ _ p (by simp [openCount]))
  · intro sess hm hp ho
    have hmem : { sess with left_at := some t } ∈ closeOpen s p t := by
      rw [closeOpen, List.mem_map]
      exact ⟨sess, hm, by rw [if_pos ⟨hp, ho⟩]⟩
    exact List.mem_append_left _ hmem
  · rw [openCount_handle_join, if_pos rfl]

/-- Witness for C1 at a concrete player, store and event batch. -/
theorem C1_single_open_session_witness :
    openCount (processEvents []
      [Event.join ("Alice") ("t1"), Event.join ("Alice") ("t2")]) ("Alice") ≤ 1 ∧
    (⟨"Alice", "t1", some ("t2"), false⟩ : Session) ∈
      SessionTracker.handle [⟨"Alice", "t1", none, false⟩]
        (Event.join ("Alice") ("t2")) ∧
    openCount (SessionTracker.handle [⟨"Alice", "t1", none, false⟩]
      (Event.join ("Alice") ("t2"))) ("Alice") = 1 := by
  have h := C1_single_open_session ("Alice")
  refine ⟨h.1 _, ?_, (h.2.2 _ ("t2")).2⟩
  exact (h.2.2 [⟨"Alice", "t1", none, false⟩] ("t2")).1
    ⟨"Alice", "t1", none, false⟩ (List.mem_singleton.mpr rfl) rfl rfl

/-- C5: after startup recovery runs on a store, every open session is
closed with the recovery timestamp and carries the explicit recovered
marker (distinguishing it from an observed close, which the event path
never marks), no open session remains, and no session for a player is
opened by subsequent events until a Join for that player arrives. -/
theorem C5_crash_recovery (s : List Session) (t p : String) :
    (∀ sess ∈ s, sess.left_at = none →
      { sess with left_at := some t, recovered := true } ∈ recoverOrphans s t) ∧
    (∀ q, openCount (recoverOrphans s t) q = 0) ∧
    (∀ (s₀ : List Session) (e : Event), (∀ x ∈ s₀, x.recovered = false) →
      ∀ x ∈ SessionTracker.handle s₀ e, x.recovered = false) ∧
    (∀ es : List Event, (∀ e ∈ es, ∀ u, e ≠ .join p u) →
      openCount (processEvents (recoverOrphans s t) es) p = 0) := by
  refine ⟨fun sess hm ho => mem_recoverOrphans_of_open s t sess hm ho,
    fun q => openCount_recoverOrphans s t q,
    fun s₀ e h => recovered_false_handle s₀ e h,
    fun es hn => openCount_processEvents_no_join es _ p
      (openCount_recoverOrphans s t p) hn⟩

/-- Witness for C5 at a concrete store with one orphaned session. -/
theorem C5_crash_recovery_witness :
    (⟨"Alice", "t0", some ("rt"), true⟩ : Session) ∈
      recoverOrphans [⟨"Alice", "t0", none, false⟩] ("rt") ∧
    openCount (recoverOrphans [⟨"Alice", "t0", none, false⟩] ("rt")) ("Alice") = 0 ∧
    openCount (processEvents (recoverOrphans [⟨"Alice", "t0", none, false⟩] ("rt"))
      [Event.leave ("Bob") ("t3")]) ("Alice") = 0 := by
  have h := C5_crash_recovery [⟨"Alice", "t0", none, false⟩] ("rt") ("Alice")
  refine ⟨h.1 _ (List.mem_singleton.mpr rfl) rfl, h.2.1 ("Alice"), h.2.2.2 _ ?_⟩
  intro e he u
  rw [List.mem_singleton] at he
  rw [he]
  simp

/-! ## Lemmas: MonitoringService -/

theorem monStep_fire_fresh (cooldown now : Nat) :
    monStep cooldown now true ⟨false, none⟩ = (⟨true, some now⟩, true) := rfl

theorem monStep_suppressed (cooldown now t : Nat) (a : Bool)
    (h : now < t + cooldown) :
    monStep cooldown now true ⟨a, some t⟩ = (⟨true, some t⟩, false) := by
  simp [monStep, h]

theorem monStep_refire (cooldown now t : Nat) (a : Bool)
    (h : t + cooldown ≤ now) :
    monStep cooldown now true ⟨a, some t⟩ = (⟨true, some now⟩, true) := by
  simp [monStep, Nat.not_lt.mpr h]

theorem runBreaches_suppressed (cooldown t0 : Nat) (ts : List Nat)
    (h : ∀ t ∈ ts, t < t0 + cooldown) :
    runBreaches cooldown ⟨true, some t0⟩ ts = (⟨true, some t0⟩, 0) := by
  induction ts with
  | nil => rfl
  | cons t ts ih =>
    have hs := monStep_suppressed cooldown t t0 true (h t (List.mem_cons_self _ _))
    have ht := ih (fun x hx => h x (List.mem_cons_of_mem _ hx))
    simp [runBreaches, hs, ht]

/-- C2: on a run of consecutive breaching polls that all fall within one
cool-down window of the first, exactly one alert is emitted — the first
breach fires and records last_fired_at, later breaches are suppressed while
the state stays Active — a breach within the window flips a Normal state to
Active without an alert, and once the window has elapsed with the breach
still active the next poll fires a second alert. -/
theorem C2_alert_rate_limiting (cooldown t0 : Nat) (ts : List Nat)
    (h : ∀ t ∈ ts, t < t0 + cooldown) :
    (runBreaches cooldown ⟨false, none⟩ (t0 :: ts)).2 = 1 ∧
    (runBreaches cooldown ⟨false, none⟩ (t0 :: ts)).1 = ⟨true, some t0⟩ ∧
    (∀ (now t : Nat) (a : Bool), now < t + cooldown →
      monStep cooldown now true ⟨a, some t⟩ = (⟨true, some t⟩, false)) ∧
    (∀ t2 : Nat, t0 + cooldown ≤ t2 →
      monStep cooldown t2 true (runBreaches cooldown ⟨false, none⟩ (t0 :: ts)).1 =
        (⟨true, some t2⟩, true)) := by
  have hrun : runBreaches cooldown ⟨false, none⟩ (t0 :: ts) = (⟨true, some t0⟩, 1) := by
    have hs := runBreaches_suppressed cooldown t0 ts h
    simp [runBreaches, monStep_fire_fresh, hs]
  refine ⟨by rw [hrun], by rw [hrun],
    fun now t a hlt => monStep_suppressed cooldown now t a hlt,
    fun t2 h2 => ?_⟩
  rw [hrun]
  exact monStep_refire cooldown t2 t0 true h2

/-- Witness for C2: four breaching polls inside a 60-tick window fire one
alert, and a poll at the window's edge fires a second one. -/
theorem C2_alert_rate_limiting_witness :
    (runBreaches 60 ⟨false, none⟩ [0, 10, 20, 30]).2 = 1 ∧
    monStep 60 60 true (runBreaches 60 ⟨false, none⟩ [0, 10, 20, 30]).1 =
      (⟨true, some 60⟩, true) := by
  have h := C2_alert_rate_limiting 60 0 [10, 20, 30] (by decide)
  exact ⟨h.1, h.2.2.2 60 (by decide)⟩

theorem monTick_unreachable (cooldown now : Nat) (sample : String → Option Int)
    (states : List (ThresholdRule × AlertState)) (h : ∀ m, sample m = none) :
    monTick cooldown now sample states =
      (states.map (fun rs => (rs.1, { rs.2 with active := false })), 0) := by
  induction states with
  | nil => rfl
  | cons rs rest ih =>
    simp [monTick, h, evalBreach, monStep, ih]

/-- C7: on a tick where the metrics source is unreachable (every sampled
value absent), no rule is treated as breached: no alert fires, no state
flips to Active (every status resets to Normal with last_fired_at kept),
and per-rule an absent value never evaluates as a breach. -/
theorem C7_unreachable_source (cooldown now : Nat) (sample : String → Option Int)
    (states : List (ThresholdRule × AlertState)) (h : ∀ m, sample m = none) :
    (monTick cooldown now sample states).2 = 0 ∧
    (monTick cooldown now sample states).1 =
      states.map (fun rs => (rs.1, { rs.2 with active := false })) ∧
    (∀ rule : ThresholdRule, evalBreach rule none = false) := by
  have key := monTick_unreachable cooldown now sample states h
  exact ⟨by rw [key], by rw [key], fun rule => rfl⟩

/-- Witness for C7 at a concrete rule list and an unreachable source. -/
theorem C7_unreachable_source_witness :
    (monTick 60 5 (fun _ => none) [(⟨"tickRate", false, 15⟩, ⟨false, none⟩)]).2 = 0 ∧
    (monTick 60 5 (fun _ => none) [(⟨"tickRate", false, 15⟩, ⟨false, none⟩)]).1 =
      [(⟨"tickRate", false, 15⟩, ⟨false, none⟩)] := by
  have h := C7_unreachable_source 60 5 (fun _ => none)
    [(⟨"tickRate", false, 15⟩, ⟨false, none⟩)] (fun m => rfl)
  refine ⟨h.1, ?_⟩
  rw [h.2.1]
  rfl

/-! ## Lemmas: LogWatcher -/

theorem tick_no_advance (src : Nat → FetchResult) (d : List String → Bool)
    (c : Nat) (hr : (src c).reset = false) (hd : d (src c).lines = false) :
    LogWatcher.tick src d c = c := by
  simp [LogWatcher.tick, hr, hd]

theorem tick_advance (src : Nat → FetchResult) (d : List String → Bool)
    (c : Nat) (hr : (src c).reset = false) (hd : d (src c).lines = true) :
    LogWatcher.tick src d c = (src c).newCursor := by
  simp [LogWatcher.tick, hr, hd]

theorem tick_reset (src : Nat → FetchResult) (d : List String → Bool)
    (c : Nat) (hr : (src c).reset = true) :
    LogWatcher.tick src d c = (src c).newCursor := by
  simp [LogWatcher.tick, hr]

theorem tick_le (src : Nat → FetchResult) (d : List String → Bool)
    (c : Nat) (hr : (src c).reset = false) (hm : c ≤ (src c).newCursor) :
    c ≤ LogWatcher.tick src d c := by
  by_cases hd : d (src c).lines
  · rw [tick_advance src d c hr hd]
    exact hm
  · rw [tick_no_advance src d c hr (Bool.not_eq_true _ ▸ hd)]

/-- C6: across any sequence of ticks of a source that reports no
discontinuity and honours the fetch contract (new cursor at or past the
old), the cursor is monotonically non-decreasing; on a single tick the
cursor advances past the batch exactly when the whole batch dispatched,
stays put when dispatch fails, and an explicit head reset moves the cursor
to the source's reported head. -/
theorem C6_cursor_monotone (src : Nat → FetchResult) (d : List String → Bool) :
    ((∀ c : Nat, (src c).reset = false) → (∀ c : Nat, c ≤ (src c).newCursor) →
      ∀ (n c : Nat), c ≤ LogWatcher.runTicks src d c n) ∧
    (∀ c : Nat, (src c).reset = false → d (src c).lines = false →
      LogWatcher.tick src d c = c) ∧
    (∀ c : Nat, (src c).reset = false → d (src c).lines = true →
      LogWatcher.tick src d c = (src c).newCursor) ∧
    (∀ c : Nat, (src c).reset = true →
      LogWatcher.tick src d c = (src c).newCursor) := by
  refine ⟨fun hr hm n => ?_, tick_no_advance src d, tick_advance src d,
    tick_reset src d⟩
  induction n with
  | zero => exact fun c => Nat.le_refl c
  | succ n ih =>
    intro c
    calc c ≤ LogWatcher.tick src d c := tick_le src d c (hr c) (hm c)
    _ ≤ LogWatcher.runTicks src d (LogWatcher.tick src d c) n := ih _
    _ = LogWatcher.runTicks src d c (n + 1) := rfl

/-- Witness for C6 at a concrete source and both dispatch outcomes. -/
theorem C6_cursor_monotone_witness :
    0 ≤ LogWatcher.runTicks (fun c => ⟨[], c + 1, false⟩) (fun _ => true) 0 3 ∧
    LogWatcher.tick (fun c => ⟨[], c + 1, false⟩) (fun _ => false) 5 = 5 ∧
    LogWatcher.tick (fun c => ⟨[], c + 1, false⟩) (fun _ => true) 5 = 6 := by
  refine ⟨(C6_cursor_monotone (fun c => ⟨[], c + 1, false⟩) (fun _ => true)).1
      (fun c => rfl) (fun c => Nat.le_succ c) 3 0,
    (C6_cursor_monotone (fun c => ⟨[], c + 1, false⟩) (fun _ => false)).2.1 5 rfl rfl,
    ?_⟩
  rw [(C6_cursor_monotone (fun c => ⟨[], c + 1, false⟩) (fun _ => true)).2.2.1 5 rfl rfl]

/-! ## Lemmas: Dispatcher -/

theorem dispatch_eq_map (consumers : List (Event → Except String Unit))
    (e : Event) :
    dispatch consumers e = .ok (consumers.map fun c => attemptDeliver c e) := by
  induction consumers with
  | nil => rfl
  | cons c cs ih => simp [dispatch, ih]

/-- C4: dispatch attempts delivery to every registered consumer and always
returns normally — one isolated result per consumer, never a propagated
failure — so an always-failing consumer placed before a healthy one does
not keep the healthy consumer from receiving the event. -/
theorem C4_consumer_isolation (consumers : List (Event → Except String Unit))
    (e : Event) :
    dispatch consumers e = .ok (consumers.map fun c => attemptDeliver c e) ∧
    (consumers.map fun c => attemptDeliver c e).length = consumers.length ∧
    (∀ (bad good : Event → Except String Unit) (m : String),
      bad e = .error m → good e = .ok () →
      dispatch [bad, good] e = .ok [.failed m, .delivered]) := by
  refine ⟨dispatch_eq_map consumers e, by simp, fun bad good m hb hg => ?_⟩
  rw [dispatch_eq_map]
  simp [attemptDeliver, hb, hg]

/-- Witness for C4: a consumer that always fails does not keep a healthy
consumer from receiving the event. -/
theorem C4_consumer_isolation_witness :
    dispatch [fun _ => .error ("boom"), fun _ => .ok ()]
      (Event.join ("Alice") ("t1")) =
      .ok [.failed ("boom"), .delivered] :=
  (C4_consumer_isolation [fun _ => .error ("boom"), fun _ => .ok ()]
    (Event.join ("Alice") ("t1"))).2.2 _ _ ("boom") rfl rfl

/-! ## Lemmas: useLogsWs hook -/

theorem lastN_length_le (n : Nat) (l : List String) : (lastN n l).length ≤ n := by
  rw [lastN, List.length_drop]
  omega

theorem handleWsMessage_length_le (paused : Bool) (buf : List String)
    (msg : WsMsg) (h : buf.length ≤ MAX_LINES) :
    (handleWsMessage paused buf msg).length ≤ MAX_LINES := by
  cases msg with
  | initial ls => exact lastN_length_le _ _
  | newLines ls =>
    by_cases hp : paused
    · simp only [handleWsMessage, if_pos hp]
      exact h
    · simp only [handleWsMessage, if_neg hp]
      split
      · exact lastN_length_le _ _
      · next h2 => exact Nat.le_of_not_lt h2

theorem foldl_ws_length_le (steps : List (Bool × WsMsg)) (buf : List String)
    (h : buf.length ≤ MAX_LINES) :
    (steps.foldl (fun b s => handleWsMessage s.1 b s.2) buf).length ≤
      MAX_LINES := by
  induction steps generalizing buf with
  | nil => exact h
  | cons st steps ih =>
    exact ih _ (handleWsMessage_length_le st.1 buf st.2 h)

/-- C8: the lines buffer of the useLogsWs hook never exceeds MAX_LINES =
3000 entries after any sequence of websocket messages; an initial message
replaces the buffer with the last 3000 received lines, a new message
appends and keeps the last 3000 of the combined list, and while paused a
new message leaves the buffer unchanged. -/
theorem C8_log_buffer_bound (steps : List (Bool × WsMsg)) (paused : Bool)
    (buf ls : List String) :
    (runWsSession steps).length ≤ MAX_LINES ∧
    handleWsMessage paused buf (.initial ls) = lastN MAX_LINES ls ∧
    handleWsMessage true buf (.newLines ls) = buf ∧
    handleWsMessage false buf (.newLines ls) =
      (if MAX_LINES < (buf ++ ls).length then lastN MAX_LINES (buf ++ ls)
       else buf ++ ls) := by
  refine ⟨?_, rfl, rfl, rfl⟩
  rw [runWsSession]
  exact foldl_ws_length_le steps [] (by simp)

/-! ## Lemmas: api client request helper -/

/-- C9: the request helper logs the user out (token, role, telegramId and
firstName all cleared) and throws Unauthorized on a 401 response; any
other non-ok response throws the body's detail (or `HTTP status`) leaving
the auth state untouched; an ok response returns the parsed body. -/
theorem C9_request_auth (auth : AuthState) (res : HttpResponse) :
    (res.status = 401 →
      request auth res = (⟨none, none, none, none⟩, .error ("Unauthorized"))) ∧
    (res.status ≠ 401 → responseOk res.status = false →
      request auth res = (auth, .error (errorDetail res))) ∧
    (res.status ≠ 401 → responseOk res.status = true →
      request auth res = (auth, .ok res.jsonBody)) := by
  refine ⟨fun h => ?_, fun h hok => ?_, fun h hok => ?_⟩
  · simp [request, h, AuthState.logout]
  · simp [request, h, hok]
  · simp [request, h, hok]

/-- Witness for C9 at a concrete auth state and three concrete responses. -/
theorem C9_request_auth_witness :
    request ⟨some ("tk"), some ("admin"), some 5, some ("Ann")⟩ ⟨401, none, ""⟩ =
      (⟨none, none, none, none⟩, .error ("Unauthorized")) ∧
    request ⟨some ("tk"), some ("admin"), some 5, some ("Ann")⟩ ⟨500, none, ""⟩ =
      (⟨some ("tk"), some ("admin"), some 5, some ("Ann")⟩,
        .error ("HTTP 500")) ∧
    request ⟨some ("tk"), some ("admin"), some 5, some ("Ann")⟩
        ⟨200, none, "body"⟩ =
      (⟨some ("tk"), some ("admin"), some 5, some ("Ann")⟩, .ok ("body")) := by
  have h401 := C9_request_auth ⟨some ("tk"), some ("admin"), some 5, some ("Ann")⟩
    ⟨401, none, ""⟩
  have h500 := C9_request_auth ⟨some ("tk"), some ("admin"), some 5, some ("Ann")⟩
    ⟨500, none, ""⟩
  have h200 := C9_request_auth ⟨some ("tk"), some ("admin"), some 5, some ("Ann")⟩
    ⟨200, none, "body"⟩
  exact ⟨h401.1 rfl, h500.2.1 (by decide) rfl, h200.2.2 (by decide) rfl⟩

/-! ## Lemmas: Console submit -/

/-- C10: submitting a command whose trimmed text is non-empty places it at
index 0 of the command history, removes any earlier duplicate, caps the
history at 50 entries and appends a command entry to the displayed log;
input that trims to empty changes nothing. -/
theorem C10_console_submit (now : String) (s : ConsoleState) :
    (jsTrim s.input ≠ "" →
      (submit now s).cmdHistory.head? = some (jsTrim s.input) ∧
      (submit now s).cmdHistory.tail =
        (s.cmdHistory.filter (fun c => c ≠ jsTrim s.input)).take 49 ∧
      jsTrim s.input ∉ (submit now s).cmdHistory.tail ∧
      (submit now s).cmdHistory.length ≤ 50 ∧
      (submit now s).history = s.history ++
        [{ type := .command, text := jsTrim s.input, time := now }]) ∧
    (jsTrim s.input = "" → submit now s = s) := by
  constructor
  · intro h
    have hdef : (submit now s).cmdHistory =
        jsTrim s.input :: (s.cmdHistory.filter (fun c => c ≠ jsTrim s.input)).take 49 := by
      simp only [submit, if_neg h]
      rw [List.take_succ_cons]
    have hhist : (submit now s).history = s.history ++
        [{ type := .command, text := jsTrim s.input, time := now }] := by
      simp only [submit, if_neg h]
    refine ⟨by rw [hdef]; rfl, by rw [hdef, List.tail_cons], ?_, ?_, hhist⟩
    · rw [hdef]
      intro hmem
      have hf := List.take_subset 49 _ hmem
      have := (List.mem_filter.mp hf).2
      simp at this
    · rw [hdef]
      simp only [List.length_cons]
      have := List.length_take_le 49
        (s.cmdHistory.filter (fun c => c ≠ jsTrim s.input))
      omega
  · intro h
    simp only [submit, if_pos h]

/-- Witness for C10 at a concrete console state. -/
theorem C10_console_submit_witness :
    (submit ("12:00:00") ⟨" list ", [], ["say", "list"], 7⟩).cmdHistory.head? =
      some ("list") ∧
    (submit ("12:00:00") ⟨" list ", [], ["say", "list"], 7⟩).cmdHistory.tail =
      ["say"] ∧
    (submit ("12:00:00") ⟨" list ", [], ["say", "list"], 7⟩).cmdHistory.length ≤ 50 ∧
    submit ("12:00:00") ⟨"   ", [], ["say"], 0⟩ = ⟨"   ", [], ["say"], 0⟩ := by
  have h1 := C10_console_submit ("12:00:00") ⟨" list ", [], ["say", "list"], 7⟩
  have h2 := C10_console_submit ("12:00:00") ⟨"   ", [], ["say"], 0⟩
  have ht : jsTrim (" list ") = "list" := by decide
  have hne : jsTrim (" list ") ≠ "" := by decide
  refine ⟨?_, ?_, (h1.1 hne).2.2.2.1, h2.2 (by decide)⟩
  · rw [(h1.1 hne).1, ht]
  · rw [(h1.1 hne).2.1, ht]
    decide

/-! ## Lemmas: EventParser -/

theorem stripPre_append (ps l : List Char) : stripPre ps (ps ++ l) = some l := by
  induction ps with
  | nil => rfl
  | cons p ps ih => simp [stripPre, ih]

theorem stripPre_eq_some (ps : List Char) :
    ∀ l r, stripPre ps l = some r → l = ps ++ r := by
  induction ps with
  | nil =>
    intro l r h
    simpa using (Option.some.injEq .. ▸ h :)
  | cons p ps ih =>
    intro l r h
    cases l with
    | nil => exact absurd h (by simp [stripPre])
    | cons c cs =>
      rw [stripPre] at h
      by_cases hc : c = p
      · rw [if_pos hc] at h
        simp [hc, ih cs r h]
      · rw [if_neg hc] at h
        cases h

theorem stripSuf_append (l suf : List Char) : stripSuf suf (l ++ suf) = some l := by
  rw [stripSuf, List.reverse_append, stripPre_append]
  simp

theorem stripSuf_eq_some (suf l r : List Char) (h : stripSuf suf l = some r) :
    l = r ++ suf := by
  rw [stripSuf] at h
  cases hsp : stripPre suf.reverse l.reverse with
  | none => rw [hsp] at h; cases h
  | some x =>
    rw [hsp] at h
    injection h with h
    have hx := stripPre_eq_some suf.reverse l.reverse x hsp
    calc l = l.reverse.reverse := by simp
    _ = (suf.reverse ++ x).reverse := by rw [hx]
    _ = x.reverse ++ suf := by simp
    _ = r ++ suf := by rw [h]

theorem splitAtChar_append (sep : Char) (ts rest : List Char) (h : sep ∉ ts) :
    splitAtChar sep (ts ++ sep :: rest) = some (ts, rest) := by
  induction ts with
  | nil => simp [splitAtChar]
  | cons c ts ih =>
    have hc : ¬c = sep := fun he => h (he ▸ List.mem_cons_self _ _)
    have ht := ih (fun hm => h (List.mem_cons_of_mem _ hm))
    simp [splitAtChar, hc, ht]

theorem splitAtChar_eq_some (sep : Char) (l : List Char) :
    ∀ a b, splitAtChar sep l = some (a, b) → l = a ++ sep :: b ∧ sep ∉ a := by
  induction l with
  | nil => intro a b h; cases h
  | cons c cs ih =>
    intro a b h
    rw [splitAtChar] at h
    by_cases hc : c = sep
    · rw [if_pos hc] at h
      simp only [Option.some.injEq, Prod.mk.injEq] at h
      obtain ⟨rfl, rfl⟩ := h
      exact ⟨by simp [hc], by simp⟩
    · rw [if_neg hc] at h
      cases hsp : splitAtChar sep cs with
      | none => rw [hsp] at h; cases h
      | some p =>
        obtain ⟨x, y⟩ := p
        rw [hsp] at h
        simp only [Option.some.injEq, Prod.mk.injEq] at h
        obtain ⟨rfl, rfl⟩ := h
        obtain ⟨hcs, hnot⟩ := ih x y hsp
        refine ⟨by rw [List.cons_append, hcs], ?_⟩
        intro hm
        rcases List.mem_cons.mp hm with hm | hm
        · exact hc hm.symm
        · exact hnot hm

theorem splitHeader_shape (ts body : List Char) (hts : ']' ∉ ts) :
    splitHeader ('[' :: ts ++ ']' :: ' ' :: body) = some (ts, body) := by
  simp [splitHeader, splitAtChar_append ']' ts (' ' :: body) hts]

theorem splitHeader_eq_some (l ts body : List Char)
    (h : splitHeader l = some (ts, body)) :
    l = '[' :: ts ++ ']' :: ' ' :: body ∧ ']' ∉ ts := by
  cases l with
  | nil => cases h
  | cons c rest =>
    rw [splitHeader] at h
    by_cases hc : c = '['
    · rw [if_pos hc] at h
      cases hsp : splitAtChar ']' rest with
      | none => rw [hsp] at h; cases h
      | some p =>
        obtain ⟨ts', after⟩ := p
        rw [hsp] at h
        cases after with
        | nil => cases h
        | cons a body' =>
          simp only [] at h
          by_cases ha : a = ' '
          · rw [if_pos ha] at h
            simp only [Option.some.injEq, Prod.mk.injEq] at h
            obtain ⟨rfl, rfl⟩ := h
            obtain ⟨hrest, hnot⟩ := splitAtChar_eq_some ']' rest _ _ hsp
            refine ⟨?_, hnot⟩
            simp [hc, hrest, ha]
          · rw [if_neg ha] at h
            cases h
    · rw [if_neg hc] at h
      cases h

theorem parseBody_join (ts name : List Char) :
    parseBody ts (name ++ joinSuffix) =
      (if validName name then some (.join ⟨name⟩ ⟨ts⟩) else none) := by
  simp [parseBody, stripSuf_append]

theorem parse_join_line (ts name : List Char) (hts : ']' ∉ ts) :
    parse ⟨'[' :: ts ++ ']' :: ' ' :: (name ++ joinSuffix)⟩ =
      (if validName name then some (.join ⟨name⟩ ⟨ts⟩) else none) := by
  show parseChars ('[' :: ts ++ ']' :: ' ' :: (name ++ joinSuffix)) = _
  rw [parseChars, splitHeader_shape ts _ hts]
  exact parseBody_join ts name

theorem parseChars_matches (l : List Char) (e : Event)
    (h : parseChars l = some e) :
    matchesJoinPat l ∨ matchesLeavePat l ∨ matchesChatPat l := by
  rw [parseChars] at h
  cases hsp : splitHeader l with
  | none => rw [hsp] at h; cases h
  | some p =>
    obtain ⟨ts, body⟩ := p
    rw [hsp] at h
    simp only [] at h
    obtain ⟨hl, hts⟩ := splitHeader_eq_some l ts body hsp
    rw [parseBody.eq_def] at h
    cases hj : stripSuf joinSuffix body with
    | some name =>
      exact Or.inl ⟨ts, name, hts,
        by rw [hl, stripSuf_eq_some joinSuffix body name hj]⟩
    | none =>
      rw [hj] at h
      cases hlv : stripSuf leaveSuffix body with
      | some name =>
        exact Or.inr (Or.inl ⟨ts, name, hts,
          by rw [hl, stripSuf_eq_some leaveSuffix body name hlv]⟩)
      | none =>
        rw [hlv] at h
        refine Or.inr (Or.inr ?_)
        cases body with
        | nil => cases h
        | cons b rest =>
          simp only [] at h
          by_cases hb : b = '<'
          · rw [if_pos hb] at h
            cases hgt : splitAtChar '>' rest with
            | none => rw [hgt] at h; cases h
            | some pp =>
              obtain ⟨name, tail⟩ := pp
              rw [hgt] at h
              simp only [] at h
              cases tail with
              | nil => cases h
              | cons sp msg =>
                simp only [] at h
                by_cases hsp2 : sp = ' '
                · obtain ⟨hrest, hnot⟩ := splitAtChar_eq_some '>' rest _ _ hgt
                  exact ⟨ts, name, msg, hts, hnot,
                    by simp [hl, hb, hrest, hsp2]⟩
                · rw [if_neg hsp2] at h
                  cases h
          · rw [if_neg hb] at h
            cases h

theorem matchesJoin_iff (l : List Char) :
    matchesJoin l = true ↔ matchesJoinPat l := by
  constructor
  · intro h
    rw [matchesJoin] at h
    cases hsp : splitHeader l with
    | none => rw [hsp] at h; cases h
    | some p =>
      obtain ⟨ts, body⟩ := p
      rw [hsp] at h
      simp only [] at h
      obtain ⟨hl, hts⟩ := splitHeader_eq_some l ts body hsp
      cases hj : stripSuf joinSuffix body with
      | none => rw [hj] at h; cases h
      | some name =>
        exact ⟨ts, name, hts,
          by rw [hl, stripSuf_eq_some joinSuffix body name hj]⟩
  · rintro ⟨ts, name, hts, rfl⟩
    rw [matchesJoin, splitHeader_shape ts (name ++ joinSuffix) hts]
    simp [stripSuf_append]

theorem matchesLeave_iff (l : List Char) :
    matchesLeave l = true ↔ matchesLeavePat l := by
  constructor
  · intro h
    rw [matchesLeave] at h
    cases hsp : splitHeader l with
    | none => rw [hsp] at h; cases h
    | some p =>
      obtain ⟨ts, body⟩ := p
      rw [hsp] at h
      simp only [] at h
      obtain ⟨hl, hts⟩ := splitHeader_eq_some l ts body hsp
      cases hj : stripSuf leaveSuffix body with
      | none => rw [hj] at h; cases h
      | some name =>
        exact ⟨ts, name, hts,
          by rw [hl, stripSuf_eq_some leaveSuffix body name hj]⟩
  · rintro ⟨ts, name, hts, rfl⟩
    rw [matchesLeave, splitHeader_shape ts (name ++ leaveSuffix) hts]
    simp [stripSuf_append]

theorem matchesChat_iff (l : List Char) :
    matchesChat l = true ↔ matchesChatPat l := by
  constructor
  · intro h
    rw [matchesChat] at h
    cases hsp : splitHeader l with
    | none => rw [hsp] at h; cases h
    | some p =>
      obtain ⟨ts, body⟩ := p
      rw [hsp] at h
      simp only [] at h
      obtain ⟨hl, hts⟩ := splitHeader_eq_some l ts body hsp
      cases body with
      | nil => cases h
      | cons b rest =>
        simp only [] at h
        by_cases hb : b = '<'
        · rw [if_pos hb] at h
          cases hgt : splitAtChar '>' rest with
          | none => rw [hgt] at h; cases h
          | some pp =>
            obtain ⟨name, tail⟩ := pp
            rw [hgt] at h
            simp only [] at h
            cases tail with
            | nil => cases h
            | cons sp msg =>
              simp only [] at h
              have hsp2 : sp = ' ' := by simpa using h
              obtain ⟨hrest, hnot⟩ := splitAtChar_eq_some '>' rest _ _ hgt
              exact ⟨ts, name, msg, hts, hnot,
                by simp [hl, hb, hrest, hsp2]⟩
        · rw [if_neg hb] at h
          cases h
  · rintro ⟨ts, name, msg, hts, hnot, rfl⟩
    rw [matchesChat, splitHeader_shape ts _ hts]
    simp [splitAtChar_append '>' name (' ' :: msg) hnot]

theorem parseChars_none_of_unmatched (l : List Char)
    (h1 : matchesJoin l = false) (h2 : matchesLeave l = false)
    (h3 : matchesChat l = false) : parseChars l = none := by
  cases hp : parseChars l with
  | none => rfl
  | some e =>
    rcases parseChars_matches l e hp with hm | hm | hm
    · rw [(matchesJoin_iff l).mpr hm] at h1
      cases h1
    · rw [(matchesLeave_iff l).mpr hm] at h2
      cases h2
    · rw [(matchesChat_iff l).mpr hm] at h3
      cases h3

theorem parseChars_valid_name (l : List Char) (e : Event)
    (h : parseChars l = some e) :
    validName (eventName e).toList = true := by
  rw [parseChars] at h
  cases hsp : splitHeader l with
  | none => rw [hsp] at h; cases h
  | some p =>
    obtain ⟨ts, body⟩ := p
    rw [hsp] at h
    simp only [] at h
    rw [parseBody.eq_def] at h
    cases hj : stripSuf joinSuffix body with
    | some name =>
      rw [hj] at h
      simp only [] at h
      by_cases hv : validName name
      · rw [if_pos hv] at h
        injection h with h
        rw [← h]
        exact hv
      · rw [if_neg hv] at h
        cases h
    | none =>
      rw [hj] at h
      cases hlv : stripSuf leaveSuffix body with
      | some name =>
        rw [hlv] at h
        simp only [] at h
        by_cases hv : validName name
        · rw [if_pos hv] at h
          injection h with h
          rw [← h]
          exact hv
        · rw [if_neg hv] at h
          cases h
      | none =>
        rw [hlv] at h
        cases body with
        | nil => cases h
        | cons b rest =>
          simp only [] at h
          by_cases hb : b = '<'
          · rw [if_pos hb] at h
            cases hgt : splitAtChar '>' rest with
            | none => rw [hgt] at h; cases h
            | some pp =>
              obtain ⟨name, tail⟩ := pp
              rw [hgt] at h
              simp only [] at h
              cases tail with
              | nil => cases h
              | cons sp msg =>
                simp only [] at h
                by_cases hsp2 : sp = ' '
                · rw [if_pos hsp2] at h
                  by_cases hv : validName name
                  · rw [if_pos hv] at h
                    injection h with h
                    rw [← h]
                    exact hv
                  · rw [if_neg hv] at h
                    cases h
                · rw [if_neg hsp2] at h
                  cases h
          · rw [if_neg hb] at h
            cases h

/-- C3: EventParser.parse is a pure function yielding at most one event
per line: a line matching the join pattern with a valid player name parses
to a Join event carrying that name; a line matching none of the
join/leave/chat patterns (the executable recognisers are proved equivalent
to the declarative pattern statements) parses to none; and a line whose
recognised pattern carries an invalid player name parses to none — indeed
every event the parser emits carries a validated name. -/
theorem C3_parse_contract (ts name l : List Char) :
    (']' ∉ ts → validName name = true →
      parse ⟨'[' :: ts ++ ']' :: ' ' :: (name ++ joinSuffix)⟩ =
        some (.join ⟨name⟩ ⟨ts⟩)) ∧
    ((matchesJoin l = true ↔ matchesJoinPat l) ∧
      (matchesLeave l = true ↔ matchesLeavePat l) ∧
      (matchesChat l = true ↔ matchesChatPat l)) ∧
    (matchesJoin l = false → matchesLeave l = false → matchesChat l = false →
      parse ⟨l⟩ = none) ∧
    (∀ e : Event, parse ⟨l⟩ = some e →
      validName (eventName e).toList = true) ∧
    (']' ∉ ts → validName name = false →
      parse ⟨'[' :: ts ++ ']' :: ' ' :: (name ++ joinSuffix)⟩ = none) := by
  refine ⟨fun hts hv => ?_,
    ⟨matchesJoin_iff l, matchesLeave_iff l, matchesChat_iff l⟩,
    fun h1 h2 h3 => parseChars_none_of_unmatched l h1 h2 h3,
    fun e he => parseChars_valid_name l e he,
    fun hts hv => ?_⟩
  · rw [parse_join_line ts name hts, if_pos hv]
  · rw [parse_join_line ts name hts]
    simp [hv]

/-- Witness for C3 at concrete log lines: a well-formed join line, an
unrecognised line, and a join line with an invalid player name. -/
theorem C3_parse_contract_witness :
    parse ("[12:00:01] Alice joined the game") =
      some (Event.join ("Alice") ("12:00:01")) ∧
    parse ("garbage") = none ∧
    parse ("[12:00:01] Bad!! joined the game") = none := by
  have h1 := C3_parse_contract (("12:00:01").toList) (("Alice").toList)
    (("garbage").toList)
  have h2 := C3_parse_contract (("12:00:01").toList) (("Bad!!").toList) ([])
  exact ⟨h1.1 (by decide) (by decide),
    h1.2.2.1 (by decide) (by decide) (by decide),
    h2.2.2.2.2 (by decide) (by decide)⟩
